import Mathlib

/-!
Shallow embedding of `yellowstone-grpc-tools/src/scylladb/sink.rs`.

The file models the sharded ScyllaDB sink: the per-shard append daemon
(`Shard`, `Shard.flush`, `Shard.into_daemon`'s loop body), offset recovery
(`get_max_shard_offsets_for_producer`), the producer lock
(`try_acquire_lock`, `ProducerLock.release`), the round-robin dispatcher
(`spawn_round_robin`) and the facade wiring (`ScyllaSink::new` shard
construction, `ScyllaSink::shutdown`).

Database effects are represented by explicit traces of actions; machine
integers (i64 offsets, periods, slots) are modelled as `Int`, sizes and
capacities (usize) as `Nat`, and instants/durations (tokio `Instant`,
`Duration`) as natural-number timestamps in an arbitrary unit.

`SHARD_OFFSET_MODULO` (the period size) and the payload types
(`AccountUpdate`, `Transaction`, `as_blockchain_event`, `deep_size_of`)
live in the crate's `types.rs`, which is outside this file's sources; the
period size is kept as an explicit parameter `S` and payloads are
abstracted to the two fields the sink reads (`slot`) or computes
(`deep_size_of`, kept as a `byteSize` field).
-/

/-- Payload of an insert command. `AccountUpdate` / `Transaction` are
defined in `types.rs`; the sink itself only reads their `slot` and their
deep size, so the payload is abstracted to those two observables. -/
structure Payload where
  slot : Int
  byteSize : Nat
deriving DecidableEq, Repr

/-- Modelled from the spec: `as_blockchain_event` (in `types.rs`, not part
of the given sources) renders a payload into a log-table row tagged with
`(shard_id, producer_id, offset)`. Only the tag fields and the observables
carried by the payload are modelled. -/
structure BlockchainEvent where
  shard_id : Int
  producer_id : Nat
  offset : Int
  slot : Int
  byteSize : Nat
deriving DecidableEq, Repr

def Payload.as_blockchain_event (p : Payload) (shard_id : Int) (producer_id : Nat)
    (offset : Int) : BlockchainEvent :=
  { shard_id := shard_id, producer_id := producer_id, offset := offset,
    slot := p.slot, byteSize := p.byteSize }

/-- The `ClientCommand` enum from sink.rs. -/
inductive ClientCommand
  | shutdown
  | insertAccountUpdate (p : Payload)
  | insertTransaction (p : Payload)
deriving DecidableEq, Repr

/-- Database-visible actions performed by a shard daemon, in program order:
execution of the period-commit statement, pushing an event into the
in-memory buffer/batch, and submitting a batch of buffered events. -/
inductive ShardAction
  | commitPeriod (producer_id : Nat) (shard_id : Int) (period : Int)
  | bufferEvent (ev : BlockchainEvent)
  | flushBatch (events : List BlockchainEvent)
deriving DecidableEq, Repr

/-- Constant `DEFAULT_SHARD_MAX_BUFFER_CAPACITY` from sink.rs. -/
def DEFAULT_SHARD_MAX_BUFFER_CAPACITY : Nat := 15

/-- The `Shard` struct from sink.rs. The DB session is left out (effects go
to the trace); `scylla_batch` is modelled by its statement count. -/
structure Shard where
  shard_id : Int
  producer_id : Nat
  next_offset : Int
  buffer : List BlockchainEvent
  max_buffer_capacity : Nat
  max_buffer_byte_size : Nat
  scylla_batch : Nat
  curr_batch_byte_size : Nat
  buffer_linger : Nat
deriving DecidableEq, Repr

/-- Constructor `Shard::new`. The source panics when `next_offset < 0`; the panic is
modelled by returning `none`. -/
def Shard.new (shard_id : Int) (producer_id : Nat) (next_offset : Int)
    (max_buffer_capacity max_buffer_byte_size : Nat) (buffer_linger : Nat) :
    Option Shard :=
  if next_offset < 0 then
    none
  else
    some
      { shard_id := shard_id
        producer_id := producer_id
        next_offset := next_offset
        buffer := []
        max_buffer_capacity := max_buffer_capacity
        max_buffer_byte_size := max_buffer_byte_size
        scylla_batch := 0
        curr_batch_byte_size := 0
        buffer_linger := buffer_linger }

/-- Method `Shard::clear_buffer`. -/
def Shard.clear_buffer (s : Shard) : Shard :=
  { s with buffer := [], curr_batch_byte_size := 0, scylla_batch := 0 }

/-- Method `Shard::flush`: when the buffer is non-empty the batch is submitted and
awaited (one `flushBatch` action); the buffer, batch and byte counter are
cleared in every case. -/
def Shard.flush (s : Shard) : Shard × List ShardAction :=
  (s.clear_buffer, if s.buffer.length > 0 then [ShardAction.flushBatch s.buffer] else [])

/-- The `Insert` arm of the daemon loop in `Shard::into_daemon`
(sink.rs lines 287-301): evaluate the flush predicate, flush and reset the
linger deadline when it holds, then append the event to the buffer and the
statement to the batch. `deadline` is the current `buffering_timeout`,
`now` the instant at which the message is handled;
`buffering_timeout.elapsed() > Duration::ZERO` is `deadline < now`
(tokio's `elapsed` saturates at zero). Returns the new shard state, the
new deadline and the trace of this step. -/
def Shard.handleInsert (s : Shard) (deadline now : Nat) (ev : BlockchainEvent) :
    Shard × Nat × List ShardAction :=
  let need_flush :=
    s.max_buffer_capacity ≤ s.buffer.length ∨
    s.max_buffer_byte_size ≤ s.curr_batch_byte_size + ev.byteSize ∨
    deadline < now
  if need_flush then
    let fr := s.flush
    let s1 := fr.1
    ({ s1 with buffer := s1.buffer ++ [ev], scylla_batch := s1.scylla_batch + 1,
               curr_batch_byte_size := s1.curr_batch_byte_size + ev.byteSize },
     now + s.buffer_linger,
     fr.2 ++ [ShardAction.bufferEvent ev])
  else
    ({ s with buffer := s.buffer ++ [ev], scylla_batch := s.scylla_batch + 1,
              curr_batch_byte_size := s.curr_batch_byte_size + ev.byteSize },
     deadline,
     [ShardAction.bufferEvent ev])

/-- The loop of the daemon spawned by `Shard::into_daemon`, driven by the
finite list of messages that arrive in the shard mailbox, each paired with
the instant at which the daemon processes it. `S` is
`SHARD_OFFSET_MODULO`. Per iteration: capture `offset = next_offset`;
when `offset` is a positive multiple of `S`, execute (and await) the
period-commit statement for `curr_period - 1`; advance `next_offset`; then
receive. An exhausted message list leaves the daemon blocked in `recv`
(result flag `false`); `Shutdown` flushes and returns (`true`). -/
def Shard.run (S : Int) : Shard → Nat → List (Nat × ClientCommand) →
    Shard × List ShardAction × Bool
  | s, deadline, cmds =>
    let offset := s.next_offset
    let curr_period := offset / S
    let pre : List ShardAction :=
      if offset % S = 0 ∧ offset > 0 then
        [ShardAction.commitPeriod s.producer_id s.shard_id (curr_period - 1)]
      else []
    let s1 : Shard := { s with next_offset := offset + 1 }
    match cmds with
    | [] => (s1, pre, false)
    | (_, ClientCommand.shutdown) :: _ =>
      let fr := s1.flush
      (fr.1, pre ++ fr.2, true)
    | (now, ClientCommand.insertAccountUpdate p) :: rest =>
      let ev := p.as_blockchain_event s.shard_id s.producer_id offset
      let hr := s1.handleInsert deadline now ev
      let r := Shard.run S hr.1 hr.2.1 rest
      (r.1, pre ++ hr.2.2 ++ r.2.1, r.2.2)
    | (now, ClientCommand.insertTransaction p) :: rest =>
      let ev := p.as_blockchain_event s.shard_id s.producer_id offset
      let hr := s1.handleInsert deadline now ev
      let r := Shard.run S hr.1 hr.2.1 rest
      (r.1, pre ++ hr.2.2 ++ r.2.1, r.2.2)

/-- Function `get_max_shard_offsets_for_producer` (sink.rs lines 342-420). The two
queries are abstracted by their results: `last_committed_period s` is the
newest `period` row of `producer_period_commit_log` for shard `s`
(`PER PARTITION LIMIT 1`, period DESC), and `max_offset_in_period s p` the
largest `offset` row of `log` in partition `(producer, s, p)`. The
`BTreeMap` holding `period + 1` per shard, with `0` inserted for missing
shards `0..num_shards`, is its ascending key-order association list; the
final `sort_by_key` on shard id is kept. -/
def get_max_shard_offsets_for_producer (S : Int) (num_shards : Nat)
    (last_committed_period : Int → Option Int)
    (max_offset_in_period : Int → Int → Option Int) : List (Int × Int) :=
  let current_period_foreach_shard : List (Int × Int) :=
    (List.range num_shards).map (fun s =>
      (Int.ofNat s, match last_committed_period (Int.ofNat s) with
                    | some period => period + 1
                    | none => 0))
  let shard_max_offset_pairs : List (Int × Int) :=
    current_period_foreach_shard.map (fun sc =>
      (sc.1, match max_offset_in_period sc.1 sc.2 with
             | some offset => offset
             | none => sc.2 * S - 1))
  List.insertionSort (fun a b => a.1 ≤ b.1) shard_max_offset_pairs

/-- IP addresses as the lock-acquisition code observes them: the v4/v6 tag
plus an opaque printable address. -/
inductive IpAddr
  | v4 (addr : String)
  | v6 (addr : String)
deriving DecidableEq, Repr

def IpAddr.is_ipv4 : IpAddr → Bool
  | IpAddr.v4 _ => true
  | IpAddr.v6 _ => false

def IpAddr.repr : IpAddr → String
  | IpAddr.v4 a => a
  | IpAddr.v6 a => a

/-- The `ProducerLock` struct from sink.rs (the session handle is left out). -/
structure ProducerLock where
  lock_id : String
  producer_id : Nat
deriving DecidableEq, Repr

/-- Function `try_acquire_lock` (sink.rs lines 543-596). External effects are
abstracted by their results: `network_interfaces` is what
`list_afinet_netifas()` returned, `local_ip` what `local_ip()` returned,
`lock_id` the freshly generated UUID, and `lwt_applied` whether the
`INSERT ... IF NOT EXISTS` was applied (first column of the LWT row). -/
def try_acquire_lock (network_interfaces : List (String × IpAddr))
    (ifname : Option String) (local_ip : IpAddr) (lock_id : String)
    (lwt_applied : Bool) (producer_id : Nat) : Except String ProducerLock :=
  let resolved : Except String (String × String) :=
    match ifname with
    | some name =>
      match network_interfaces.find? (fun e => e.1 == name && e.2.is_ipv4) with
      | some e => Except.ok (name, e.2.repr)
      | none => Except.error ("Found not interface named " ++ name)
    | none =>
      if !local_ip.is_ipv4 then
        Except.error "ipv6 not support for producer lock info."
      else
        match network_interfaces.find? (fun e => local_ip == e.2) with
        | some e => Except.ok (e.1, local_ip.repr)
        | none => Except.error ("Found not interface matching ip " ++ local_ip.repr)
  match resolved with
  | Except.error e => Except.error e
  | Except.ok _ =>
    if lwt_applied then
      Except.ok { lock_id := lock_id, producer_id := producer_id }
    else
      Except.error "Failed to lock producer, you may need to release it manually"

/-- Actions of the round-robin dispatcher, in program order: spawning the
background `producer_slot_seen` insert, and sending a command to a shard
mailbox (both routed inserts and the teardown `Shutdown`s). -/
inductive DispatcherAction
  | slotSeenInsert (producer_id : Nat) (slot : Int)
  | sendToShard (shard : Nat) (cmd : ClientCommand)
deriving DecidableEq, Repr

/-- Teardown phase of `spawn_round_robin`: send `Shutdown` to every shard
mailbox in index order. -/
def roundRobinTeardown (n : Nat) : List DispatcherAction :=
  (List.range n).map (fun i => DispatcherAction.sendToShard i ClientCommand.shutdown)

/-- The loop body of `spawn_round_robin` (sink.rs lines 446-512) over the
finite list of messages received from the dispatcher mailbox. `n` is the
number of shard mailboxes, `k` the position of the cyclic iterator (the
`k`-th loop iteration holds shard `k % n`), `max_slot_seen` the largest
slot seen so far. `reserveOk k` abstracts whether the backpressuring
`reserve()` on iteration `k` succeeds; an exhausted message list is
`recv() = None`, which `unwrap_or` turns into `Shutdown`. -/
def spawnRoundRobinGo (producer_id : Nat) (n : Nat) (reserveOk : Nat → Bool) :
    Nat → Int → List ClientCommand → List DispatcherAction
  | _, _, [] => roundRobinTeardown n
  | k, max_slot_seen, msg :: rest =>
    if msg = ClientCommand.shutdown then
      roundRobinTeardown n
    else
      let slot :=
        match msg with
        | ClientCommand.shutdown => -1
        | ClientCommand.insertAccountUpdate x => x.slot
        | ClientCommand.insertTransaction x => x.slot
      let slotActs : List DispatcherAction :=
        if max_slot_seen < slot then [DispatcherAction.slotSeenInsert producer_id slot]
        else []
      let max_slot' := if max_slot_seen < slot then slot else max_slot_seen
      if reserveOk k then
        slotActs ++ DispatcherAction.sendToShard (k % n) msg ::
          spawnRoundRobinGo producer_id n reserveOk (k + 1) max_slot' rest
      else
        slotActs ++ roundRobinTeardown n

/-- Function `spawn_round_robin`: the dispatcher trace for a given incoming message
sequence. With no shard mailboxes the `cycle()` iterator is empty, the
`for` body never runs and the teardown loop is over zero mailboxes. -/
def spawn_round_robin (producer_id : Nat) (n : Nat) (reserveOk : Nat → Bool)
    (msgs : List ClientCommand) : List DispatcherAction :=
  if n = 0 then [] else spawnRoundRobinGo producer_id n reserveOk 0 (-1) msgs

/-- The `ScyllaSinkConfig` struct from sink.rs (`linger` in the same time unit as the
daemon model, `batch_size_kb_limit` in KiB). -/
structure ScyllaSinkConfig where
  producer_id : Nat
  batch_len_limit : Nat
  batch_size_kb_limit : Nat
  linger : Nat
  keyspace : String
  ifname : Option String

/-- The shard-construction loop of `ScyllaSink::new` (sink.rs lines
640-654): each recovered `(shard_id, last_offset)` pair becomes
`Shard::new(shard_id, producer_id, last_offset + 1,
DEFAULT_SHARD_MAX_BUFFER_CAPACITY, batch_size_kb_limit * 1024, linger)`. -/
def scyllaSinkNewShards (config : ScyllaSinkConfig)
    (shard_offsets : List (Int × Int)) : List (Option Shard) :=
  shard_offsets.map (fun so =>
    Shard.new so.1 config.producer_id (so.2 + 1)
      DEFAULT_SHARD_MAX_BUFFER_CAPACITY (config.batch_size_kb_limit * 1024)
      config.linger)

/-- Results of the components `ScyllaSink::shutdown` interacts with:
whether the `Shutdown` send to the dispatcher mailbox succeeded, the
dispatcher task's result, each shard daemon task's result, and the result
of `ProducerLock::release`. -/
structure SinkShutdownEnv where
  router_send_ok : Bool
  router_result : Except String Unit
  shard_results : List (Except String Unit)
  release_result : Except String Unit

/-- Steps of `ScyllaSink::shutdown`, in program order. -/
inductive ShutdownStep
  | sendRouterShutdown
  | awaitRouter
  | awaitShard (i : Nat)
  | releaseLock
deriving DecidableEq, Repr

/-- The per-shard await loop of `ScyllaSink::shutdown`: awaits handle `i`,
logs its error if any, and continues with the remaining handles. -/
def awaitShardHandles : Nat → List (Except String Unit) →
    List ShutdownStep × List String
  | _, [] => ([], [])
  | i, r :: rest =>
    let tail := awaitShardHandles (i + 1) rest
    (ShutdownStep.awaitShard i :: tail.1,
     (match r with
      | Except.error e => ["shard " ++ toString i ++ " error: " ++ e]
      | Except.ok _ => []) ++ tail.2)

/-- Method `ScyllaSink::shutdown` (sink.rs lines 667-683): send `Shutdown` to the
dispatcher (logging a failure), await the dispatcher handle (logging its
error), await every shard handle in turn (logging errors), then release
the producer lock, whose result is returned via `?`. Returns the result,
the step trace and the log lines. -/
def ScyllaSink.shutdown (env : SinkShutdownEnv) :
    Except String Unit × List ShutdownStep × List String :=
  let routerSendLog : List String :=
    if env.router_send_ok then []
    else ["router was closed before we could gracefully shutdown all sharders"]
  let routerLog : List String :=
    match env.router_result with
    | Except.error e => ["Router error: " ++ e]
    | Except.ok _ => []
  let shardPart := awaitShardHandles 0 env.shard_results
  (env.release_result,
   ShutdownStep.sendRouterShutdown :: ShutdownStep.awaitRouter :: shardPart.1
     ++ [ShutdownStep.releaseLock],
   routerSendLog ++ routerLog ++ shardPart.2)

/-- The list `k, k+1, ..., k+m-1` of consecutive offsets. -/
def intRange : Int → Nat → List Int
  | _, 0 => []
  | k, m + 1 => k :: intRange (k + 1) m

/-- The events pushed into the shard buffer, in trace order. -/
def bufferedEvents (tr : List ShardAction) : List BlockchainEvent :=
  tr.filterMap (fun a =>
    match a with
    | ShardAction.bufferEvent ev => some ev
    | _ => none)

/-- The number of insert commands a shard daemon processes before the first
`Shutdown` (each consumes one loop iteration and one offset). -/
def pendingInserts : List (Nat × ClientCommand) → Nat
  | [] => 0
  | (_, ClientCommand.shutdown) :: _ => 0
  | _ :: rest => pendingInserts rest + 1

/-- Whether an action is the execution of the period-commit statement for
`(producer_id, shard_id, period)`. -/
def ShardAction.isCommitOf (producer_id : Nat) (shard_id : Int) (period : Int) :
    ShardAction → Bool
  | ShardAction.commitPeriod p s q =>
    p == producer_id && s == shard_id && q == period
  | _ => false

/-- Whether an action buffers or submits an event with offset `≥ bound`. -/
def ShardAction.touchesOffsetGE (bound : Int) : ShardAction → Bool
  | ShardAction.bufferEvent ev => decide (bound ≤ ev.offset)
  | ShardAction.flushBatch evs => evs.any (fun ev => decide (bound ≤ ev.offset))
  | _ => false

/-- Predicate `precededBy p q l`: every element of `l` satisfying `q` has an element
satisfying `p` strictly before it. -/
def precededBy (p q : ShardAction → Bool) : List ShardAction → Bool
  | [] => true
  | a :: rest => !q a && (p a || precededBy p q rest)

/-- The events buffered strictly before the first action satisfying `p`. -/
def bufferedBefore (p : ShardAction → Bool) : List ShardAction → List BlockchainEvent
  | [] => []
  | a :: rest =>
    if p a then []
    else
      (match a with
       | ShardAction.bufferEvent ev => [ev]
       | _ => []) ++ bufferedBefore p rest

/-- Claim-side check of period completeness at commit time: replaying the
trace while tracking the events currently held in the in-memory buffer
(pushed by `bufferEvent`, removed by the `flushBatch` that submits them),
every `commitPeriod P` must find no period-`P` event still pending. -/
def noPendingOfPeriodAtCommit (S : Int) :
    List BlockchainEvent → List ShardAction → Bool
  | _, [] => true
  | pending, ShardAction.bufferEvent ev :: rest =>
    noPendingOfPeriodAtCommit S (pending ++ [ev]) rest
  | pending, ShardAction.flushBatch evs :: rest =>
    noPendingOfPeriodAtCommit S (pending.filter (fun ev => !evs.contains ev)) rest
  | pending, ShardAction.commitPeriod _ _ period :: rest =>
    pending.all (fun ev => !(ev.offset / S == period)) &&
      noPendingOfPeriodAtCommit S pending rest

/-- The round-robin assignment the spec describes: starting the rotation
counter at `k`, the `j`-th command of the list goes to shard
`(k + j) % n`. -/
def rrTargets (n : Nat) : Nat → List ClientCommand → List (Nat × ClientCommand)
  | _, [] => []
  | k, c :: rest => (k % n, c) :: rrTargets n (k + 1) rest

/-- The insert commands a dispatcher action sends to a shard mailbox
(teardown `Shutdown` sends excluded). -/
def DispatcherAction.sentInsert : DispatcherAction → Option (Nat × ClientCommand)
  | DispatcherAction.sendToShard i c =>
    if c = ClientCommand.shutdown then none else some (i, c)
  | _ => none

theorem List.length_pos_iff_ne_nil' {α : Type} {l : List α} : 0 < l.length ↔ l ≠ [] :=
  List.length_pos

/-- C7: upon receiving an Insert, the daemon flushes before appending iff
the buffer is at capacity, or the batch byte size plus the event's size
reaches the byte limit, or the linger deadline has elapsed; a flush resets
the deadline to `now + buffer_linger`, and in every case the event is
appended to the buffer and batch with its byte size added. -/
theorem c7_insert_flush_predicate (s : Shard) (deadline now : Nat) (ev : BlockchainEvent) :
    (s.handleInsert deadline now ev).1.buffer =
      (if s.max_buffer_capacity ≤ s.buffer.length ∨
          s.max_buffer_byte_size ≤ s.curr_batch_byte_size + ev.byteSize ∨
          deadline < now then [] else s.buffer) ++ [ev]
    ∧ (s.handleInsert deadline now ev).1.curr_batch_byte_size =
      (if s.max_buffer_capacity ≤ s.buffer.length ∨
          s.max_buffer_byte_size ≤ s.curr_batch_byte_size + ev.byteSize ∨
          deadline < now then 0 else s.curr_batch_byte_size) + ev.byteSize
    ∧ (s.handleInsert deadline now ev).2.1 =
      (if s.max_buffer_capacity ≤ s.buffer.length ∨
          s.max_buffer_byte_size ≤ s.curr_batch_byte_size + ev.byteSize ∨
          deadline < now then now + s.buffer_linger else deadline)
    ∧ (s.handleInsert deadline now ev).2.2 =
      (if (s.max_buffer_capacity ≤ s.buffer.length ∨
           s.max_buffer_byte_size ≤ s.curr_batch_byte_size + ev.byteSize ∨
           deadline < now) ∧ s.buffer ≠ [] then [ShardAction.flushBatch s.buffer]
       else []) ++ [ShardAction.bufferEvent ev] := by
  by_cases hc : s.max_buffer_capacity ≤ s.buffer.length ∨
      s.max_buffer_byte_size ≤ s.curr_batch_byte_size + ev.byteSize ∨
      deadline < now
  · unfold Shard.handleInsert Shard.flush Shard.clear_buffer
    simp only [if_pos hc]
    by_cases hb : s.buffer = []
    · simp [hb]
    · have hl : 0 < s.buffer.length := List.length_pos.mpr hb
      simp [hb, hl, hc]
  · unfold Shard.handleInsert
    simp only [if_neg hc]
    simp [hc]

/-- C6 evidence: `ScyllaSink::new` constructs every shard with
`DEFAULT_SHARD_MAX_BUFFER_CAPACITY` (15) as its buffer capacity even when
the configuration sets `batch_len_limit = 10`. -/
theorem c6_capacity_ignores_batch_len_limit :
    (scyllaSinkNewShards
        { producer_id := 1, batch_len_limit := 10, batch_size_kb_limit := 4,
          linger := 50, keyspace := "solana", ifname := none }
        [(0, -1)]).map (Option.map Shard.max_buffer_capacity)
      = [some DEFAULT_SHARD_MAX_BUFFER_CAPACITY]
    ∧ DEFAULT_SHARD_MAX_BUFFER_CAPACITY ≠ 10 := by
  exact ⟨rfl, by decide⟩

theorem awaitShardHandles_steps (l : List (Except String Unit)) :
    ∀ i, (awaitShardHandles i l).1 = (List.range' i l.length).map ShutdownStep.awaitShard := by
  induction l with
  | nil => intro i; rfl
  | cons r rest ih =>
    intro i
    simp [awaitShardHandles, List.range'_succ, ih (i + 1)]

theorem awaitShardHandles_logs (l : List (Except String Unit)) :
    ∀ (i j : Nat) (e : String), l[j]? = some (Except.error e) →
      ("shard " ++ toString (i + j) ++ " error: " ++ e) ∈ (awaitShardHandles i l).2 := by
  induction l with
  | nil => intro i j e h; simp at h
  | cons r rest ih =>
    intro i j e h
    match j with
    | 0 =>
      simp at h
      simp [awaitShardHandles, h]
    | j' + 1 =>
      simp at h
      have := ih (i + 1) j' e (by simpa using h)
      have harith : i + 1 + j' = i + (j' + 1) := by omega
      rw [harith] at this
      simp [awaitShardHandles]
      right
      simpa using this

/-- C10: `ScyllaSink::shutdown` sends Shutdown to the dispatcher, awaits
the dispatcher handle and then every shard handle in order, and finally
releases the producer lock; per-component errors are logged, not
propagated, and the returned value is exactly the lock-release result
(so it is `Ok` iff the release succeeded). -/
theorem c10_shutdown_result (env : SinkShutdownEnv) :
    (ScyllaSink.shutdown env).1 = env.release_result
    ∧ ((ScyllaSink.shutdown env).1 = Except.ok () ↔ env.release_result = Except.ok ())
    ∧ (ScyllaSink.shutdown env).2.1 =
        ShutdownStep.sendRouterShutdown :: ShutdownStep.awaitRouter ::
          (List.range env.shard_results.length).map ShutdownStep.awaitShard
          ++ [ShutdownStep.releaseLock]
    ∧ (∀ (e : String), env.router_result = Except.error e →
        ("Router error: " ++ e) ∈ (ScyllaSink.shutdown env).2.2)
    ∧ (∀ (j : Nat) (e : String), env.shard_results[j]? = some (Except.error e) →
        ("shard " ++ toString j ++ " error: " ++ e) ∈ (ScyllaSink.shutdown env).2.2) := by
  refine ⟨rfl, Iff.rfl, ?_, ?_, ?_⟩
  · simp [ScyllaSink.shutdown, awaitShardHandles_steps, List.range_eq_range']
  · intro e he
    simp [ScyllaSink.shutdown, he]
  · intro j e he
    have := awaitShardHandles_logs env.shard_results 0 j e he
    simp at this
    simp [ScyllaSink.shutdown]
    right; right
    exact this

/-- C4: for `num_shards ≥ 1`, offset recovery returns exactly one pair per
shard id `0..num_shards`, ascending by shard id; each shard's current
period is its last committed period plus one (or 0 with no commit rows),
and its last offset is the maximum offset in the current period's
partition, or `current_period * SHARD_OFFSET_MODULO - 1` when that
partition is empty. -/
theorem c4_offset_recovery (S : Int) (n : Nat)
    (last_committed_period : Int → Option Int)
    (max_offset_in_period : Int → Int → Option Int) (hn : 1 ≤ n) :
    get_max_shard_offsets_for_producer S n last_committed_period max_offset_in_period
      = (List.range n).map (fun s =>
          (Int.ofNat s,
           match max_offset_in_period (Int.ofNat s)
               (match last_committed_period (Int.ofNat s) with
                | some period => period + 1
                | none => 0) with
           | some offset => offset
           | none =>
             (match last_committed_period (Int.ofNat s) with
              | some period => period + 1
              | none => 0) * S - 1)) := by
  simp only [get_max_shard_offsets_for_producer]
  rw [List.map_map]
  apply List.Sorted.insertionSort_eq
  apply List.Pairwise.map (fun (s : Nat) => _)
    (fun (a b : Nat) (h : a < b) => ?_) (List.pairwise_lt_range n)
  simp only [Function.comp]
  exact Int.ofNat_le.mpr (le_of_lt h)

/-- C8: `try_acquire_lock` fails exactly when interface resolution fails
(the named interface is absent or has no IPv4 address; or, with no name
given, the primary local address is not IPv4 or matches no interface) or
the conditional insert is not applied; on success the returned lock holds
the producer id and the freshly generated lock id that was inserted. -/
theorem c8_try_acquire_lock (network_interfaces : List (String × IpAddr))
    (ifname : Option String) (local_ip : IpAddr) (lock_id : String)
    (lwt_applied : Bool) (producer_id : Nat) :
    ((∃ l, try_acquire_lock network_interfaces ifname local_ip lock_id lwt_applied
        producer_id = Except.ok l)
      ↔ ((match ifname with
          | some name => ∃ e ∈ network_interfaces, e.1 = name ∧ e.2.is_ipv4 = true
          | none => local_ip.is_ipv4 = true ∧ ∃ e ∈ network_interfaces, e.2 = local_ip)
         ∧ lwt_applied = true))
    ∧ (∀ l, try_acquire_lock network_interfaces ifname local_ip lock_id lwt_applied
        producer_id = Except.ok l →
        l = { lock_id := lock_id, producer_id := producer_id }) := by
  unfold try_acquire_lock
  cases ifname with
  | some name =>
    rcases hf : network_interfaces.find? (fun e => e.1 == name && e.2.is_ipv4) with _ | e
    · have hnone : ∀ e ∈ network_interfaces, ¬(e.1 = name ∧ e.2.is_ipv4 = true) := by
        intro e he hcontra
        have := List.find?_eq_none.mp hf e he
        simp [hcontra.1, hcontra.2] at this
      constructor
      · simp only [hf]
        constructor
        · rintro ⟨l, hl⟩
          simp at hl
        · rintro ⟨⟨e, he, hprop⟩, _⟩
          exact absurd hprop (hnone e he)
      · intro l hl
        simp only [hf] at hl
        simp at hl
    · have hp := List.find?_some hf
      have hmem := List.mem_of_find?_eq_some hf
      simp only [Bool.and_eq_true, beq_iff_eq] at hp
      cases lwt_applied with
      | true =>
        constructor
        · simp only [hf]
          constructor
          · intro _
            exact ⟨⟨e, hmem, hp.1, hp.2⟩, by trivial⟩
          · intro _
            exact ⟨{ lock_id := lock_id, producer_id := producer_id }, rfl⟩
        · intro l hl
          simp only [hf] at hl
          simp at hl
          exact hl.symm
      | false =>
        constructor
        · simp only [hf]
          constructor
          · rintro ⟨l, hl⟩
            simp at hl
          · rintro ⟨_, hcontra⟩
            exact absurd hcontra (by simp)
        · intro l hl
          simp only [hf] at hl
          simp at hl
  | none =>
    cases hv : local_ip.is_ipv4 with
    | false =>
      constructor
      · simp only [hv]
        constructor
        · rintro ⟨l, hl⟩
          simp at hl
        · rintro ⟨⟨hcontra, _⟩, _⟩
          simp [hv] at hcontra
      · intro l hl
        simp only [hv] at hl
        simp at hl
    | true =>
      rcases hf : network_interfaces.find? (fun e => local_ip == e.2) with _ | e
      · have hnone : ∀ e ∈ network_interfaces, ¬(e.2 = local_ip) := by
          intro e he hcontra
          have := List.find?_eq_none.mp hf e he
          simp [hcontra] at this
        constructor
        · simp only [hv, hf]
          constructor
          · rintro ⟨l, hl⟩
            simp at hl
          · rintro ⟨⟨_, e, he, hprop⟩, _⟩
            exact absurd hprop (hnone e he)
        · intro l hl
          simp only [hv, hf] at hl
          simp at hl
      · have hp := List.find?_some hf
        have hmem := List.mem_of_find?_eq_some hf
        simp only [beq_iff_eq] at hp
        cases lwt_applied with
        | true =>
          constructor
          · simp only [hv, hf]
            constructor
            · intro _
              exact ⟨⟨by trivial, e, hmem, hp.symm⟩, by trivial⟩
            · intro _
              exact ⟨{ lock_id := lock_id, producer_id := producer_id }, rfl⟩
          · intro l hl
            simp only [hv, hf] at hl
            simp at hl
            exact hl.symm
        | false =>
          constructor
          · simp only [hv, hf]
            constructor
            · rintro ⟨l, hl⟩
              simp at hl
            · rintro ⟨_, hcontra⟩
              exact absurd hcontra (by simp)
          · intro l hl
            simp only [hv, hf] at hl
            simp at hl

theorem Shard.handleInsert_next_offset (s : Shard) (d t : Nat) (ev : BlockchainEvent) :
    (s.handleInsert d t ev).1.next_offset = s.next_offset := by
  simp only [Shard.handleInsert, Shard.flush, Shard.clear_buffer]
  split <;> rfl

theorem Shard.handleInsert_producer_id (s : Shard) (d t : Nat) (ev : BlockchainEvent) :
    (s.handleInsert d t ev).1.producer_id = s.producer_id := by
  simp only [Shard.handleInsert, Shard.flush, Shard.clear_buffer]
  split <;> rfl

theorem Shard.handleInsert_shard_id (s : Shard) (d t : Nat) (ev : BlockchainEvent) :
    (s.handleInsert d t ev).1.shard_id = s.shard_id := by
  simp only [Shard.handleInsert, Shard.flush, Shard.clear_buffer]
  split <;> rfl

theorem bufferedEvents_append (l1 l2 : List ShardAction) :
    bufferedEvents (l1 ++ l2) = bufferedEvents l1 ++ bufferedEvents l2 := by
  unfold bufferedEvents
  exact List.filterMap_append _ _ _

theorem bufferedEvents_handleInsert (s : Shard) (d t : Nat) (ev : BlockchainEvent) :
    bufferedEvents (s.handleInsert d t ev).2.2 = [ev] := by
  simp only [Shard.handleInsert, Shard.flush]
  split
  · rw [bufferedEvents_append]
    split <;> rfl
  · rfl

theorem run_buffered_offsets (S : Int) :
    ∀ (cmds : List (Nat × ClientCommand)) (s : Shard) (d : Nat),
      (bufferedEvents (Shard.run S s d cmds).2.1).map (fun ev => ev.offset)
        = intRange s.next_offset (pendingInserts cmds) := by
  intro cmds
  induction cmds with
  | nil =>
    intro s d
    rw [Shard.run]
    simp only [pendingInserts, intRange]
    split <;> rfl
  | cons hd rest ih =>
    obtain ⟨now, c⟩ := hd
    intro s d
    cases c with
    | shutdown =>
      rw [Shard.run]
      simp only [pendingInserts, intRange, Shard.flush]
      rw [bufferedEvents_append]
      split <;> split <;> rfl
    | insertAccountUpdate p =>
      rw [Shard.run]
      simp only [pendingInserts]
      rw [bufferedEvents_append, bufferedEvents_append, bufferedEvents_handleInsert]
      have hnext := Shard.handleInsert_next_offset
        { s with next_offset := s.next_offset + 1 } d now
        (p.as_blockchain_event s.shard_id s.producer_id s.next_offset)
      rw [List.map_append, List.map_append, ih _ _, hnext]
      have hpre : (bufferedEvents (if s.next_offset % S = 0 ∧ s.next_offset > 0 then
          [ShardAction.commitPeriod s.producer_id s.shard_id (s.next_offset / S - 1)]
          else [])).map (fun ev => ev.offset) = [] := by
        split <;> rfl
      rw [hpre]
      rfl
    | insertTransaction p =>
      rw [Shard.run]
      simp only [pendingInserts]
      rw [bufferedEvents_append, bufferedEvents_append, bufferedEvents_handleInsert]
      have hnext := Shard.handleInsert_next_offset
        { s with next_offset := s.next_offset + 1 } d now
        (p.as_blockchain_event s.shard_id s.producer_id s.next_offset)
      rw [List.map_append, List.map_append, ih _ _, hnext]
      have hpre : (bufferedEvents (if s.next_offset % S = 0 ∧ s.next_offset > 0 then
          [ShardAction.commitPeriod s.producer_id s.shard_id (s.next_offset / S - 1)]
          else [])).map (fun ev => ev.offset) = [] := by
        split <;> rfl
      rw [hpre]
      rfl

/-- C1: a shard daemon run started with `next_offset = k ≥ 0` renders the
successive insert commands it receives into events whose offsets are
exactly `k, k+1, k+2, ...` in arrival order — one offset per loop
iteration — so the events of a run have no duplicate and no gap. -/
theorem c1_offsets_contiguous (S sid : Int) (pid : Nat) (k : Int)
    (cap mbs lin : Nat) (s0 : Shard) (d : Nat) (cmds : List (Nat × ClientCommand))
    (hS : 0 < S) (h0 : Shard.new sid pid k cap mbs lin = some s0) :
    (bufferedEvents (Shard.run S s0 d cmds).2.1).map (fun ev => ev.offset)
      = intRange k (pendingInserts cmds) := by
  have hs : s0.next_offset = k := by
    unfold Shard.new at h0
    split at h0
    · exact absurd h0 (by simp)
    · cases h0
      rfl
  rw [run_buffered_offsets S cmds s0 d, hs]

theorem c1_offsets_contiguous_witness :
    (0 : Int) < 100
    ∧ Shard.new 0 1 0 15 4096 50 = some
        { shard_id := 0, producer_id := 1, next_offset := 0, buffer := [],
          max_buffer_capacity := 15, max_buffer_byte_size := 4096,
          scylla_batch := 0, curr_batch_byte_size := 0, buffer_linger := 50 }
    ∧ (bufferedEvents (Shard.run 100
          { shard_id := 0, producer_id := 1, next_offset := 0, buffer := [],
            max_buffer_capacity := 15, max_buffer_byte_size := 4096,
            scylla_batch := 0, curr_batch_byte_size := 0, buffer_linger := 50 } 50
          [(0, ClientCommand.insertAccountUpdate { slot := 42, byteSize := 10 }),
           (1, ClientCommand.insertTransaction { slot := 43, byteSize := 12 })]).2.1).map
        (fun ev => ev.offset)
      = intRange 0 (pendingInserts
          [(0, ClientCommand.insertAccountUpdate { slot := 42, byteSize := 10 }),
           (1, ClientCommand.insertTransaction { slot := 43, byteSize := 12 })]) :=
  ⟨by decide, by rfl,
   c1_offsets_contiguous 100 0 1 0 15 4096 50 _ 50 _ (by decide) rfl⟩

theorem c4_offset_recovery_witness :
    1 ≤ 2
    ∧ get_max_shard_offsets_for_producer 100 2
        (fun s => if s = 0 then some 4 else none)
        (fun s p => if s = 0 ∧ p = 5 then some 523 else none)
      = (List.range 2).map (fun s =>
          (Int.ofNat s,
           match (fun (s : Int) (p : Int) => if s = 0 ∧ p = 5 then some (523 : Int) else none)
               (Int.ofNat s)
               (match (fun (s : Int) => if s = 0 then some (4 : Int) else none) (Int.ofNat s) with
                | some period => period + 1
                | none => 0) with
           | some offset => offset
           | none =>
             (match (fun (s : Int) => if s = 0 then some (4 : Int) else none) (Int.ofNat s) with
              | some period => period + 1
              | none => 0) * 100 - 1)) :=
  ⟨by decide,
   c4_offset_recovery 100 2
     (fun s => if s = 0 then some 4 else none)
     (fun s p => if s = 0 ∧ p = 5 then some 523 else none) (by decide)⟩

theorem precededBy_cons_p (p q : ShardAction → Bool) (a : ShardAction)
    (l : List ShardAction) (hp : p a = true) (hq : q a = false) :
    precededBy p q (a :: l) = true := by
  simp [precededBy, hp, hq]

theorem precededBy_of_notQ (p q : ShardAction → Bool) (l : List ShardAction)
    (h : ∀ a ∈ l, q a = false) : precededBy p q l = true := by
  induction l with
  | nil => rfl
  | cons a l ih =>
    have hqa := h a (List.mem_cons_self a l)
    simp [precededBy, hqa, ih (fun a ha => h a (List.mem_cons_of_mem _ ha))]

theorem precededBy_append_of_notQ (p q : ShardAction → Bool)
    (l1 l2 : List ShardAction) (h1 : ∀ a ∈ l1, q a = false)
    (h2 : precededBy p q l2 = true) : precededBy p q (l1 ++ l2) = true := by
  induction l1 with
  | nil => simpa using h2
  | cons a l ih =>
    have hqa := h1 a (List.mem_cons_self a l)
    simp [precededBy, hqa, ih (fun a ha => h1 a (List.mem_cons_of_mem _ ha))]

theorem Shard.handleInsert_buffer_mem (s : Shard) (d t : Nat) (ev : BlockchainEvent) :
    ∀ x ∈ (s.handleInsert d t ev).1.buffer, x ∈ s.buffer ∨ x = ev := by
  simp only [Shard.handleInsert, Shard.flush, Shard.clear_buffer]
  split
  · intro x hx
    simp at hx
    right
    exact hx
  · intro x hx
    simp at hx
    exact hx

theorem Shard.handleInsert_trace_mem (s : Shard) (d t : Nat) (ev : BlockchainEvent) :
    ∀ a ∈ (s.handleInsert d t ev).2.2,
      a = ShardAction.bufferEvent ev ∨ a = ShardAction.flushBatch s.buffer := by
  simp only [Shard.handleInsert, Shard.flush, Shard.clear_buffer]
  split
  · intro a ha
    rcases List.mem_append.mp ha with h | h
    · split at h
      · right
        simpa using h
      · simp at h
    · left
      simpa using h
  · intro a ha
    left
    simpa using ha

/-- C2 (amended) core induction: from any state whose next offset and
buffered events are at or below the boundary `(P+1)*S`, every trace action
of the rest of the run that buffers or submits an event with offset
`≥ (P+1)*S` is preceded by the period-commit action for `P`. -/
theorem run_commit_precedes_boundary (S : Int) (pid : Nat) (sid P : Int)
    (hS : 0 < S) (hP : 0 ≤ P) :
    ∀ (cmds : List (Nat × ClientCommand)) (s : Shard) (d : Nat),
      s.producer_id = pid → s.shard_id = sid →
      s.next_offset ≤ (P + 1) * S →
      (∀ ev ∈ s.buffer, ev.offset < (P + 1) * S) →
      precededBy (ShardAction.isCommitOf pid sid P)
        (ShardAction.touchesOffsetGE ((P + 1) * S))
        (Shard.run S s d cmds).2.1 = true := by
  have hBpos : (0 : Int) < (P + 1) * S := mul_pos (by omega) hS
  have hmod : ((P + 1) * S) % S = 0 := Int.mul_emod_left _ _
  have hdiv : ((P + 1) * S) / S = P + 1 := Int.mul_ediv_cancel _ (ne_of_gt hS)
  intro cmds
  induction cmds with
  | nil =>
    intro s d h1 h2 h3 h4
    rw [Shard.run]
    apply precededBy_of_notQ
    intro a ha
    split at ha
    · simp at ha
      subst ha
      rfl
    · simp at ha
  | cons hd rest ih =>
    obtain ⟨now, c⟩ := hd
    intro s d h1 h2 h3 h4
    rcases eq_or_lt_of_le h3 with heq | hlt
    · -- boundary iteration: the commit for P is the first trace action
      have hcond : s.next_offset % S = 0 ∧ s.next_offset > 0 := by
        constructor
        · rw [heq]
          exact hmod
        · rw [heq]
          exact hBpos
      have hper : s.next_offset / S - 1 = P := by
        rw [heq, hdiv]
        omega
      cases c with
      | shutdown =>
        rw [Shard.run]
        simp only [if_pos hcond, hper, h1, h2, List.singleton_append]
        apply precededBy_cons_p
        · simp [ShardAction.isCommitOf]
        · rfl
      | insertAccountUpdate p =>
        rw [Shard.run]
        simp only [if_pos hcond, hper, h1, h2, List.singleton_append, List.cons_append]
        apply precededBy_cons_p
        · simp [ShardAction.isCommitOf]
        · rfl
      | insertTransaction p =>
        rw [Shard.run]
        simp only [if_pos hcond, hper, h1, h2, List.singleton_append, List.cons_append]
        apply precededBy_cons_p
        · simp [ShardAction.isCommitOf]
        · rfl
    · -- strictly below the boundary: this iteration touches no boundary
      -- event, recurse
      have hqpre : ∀ a ∈ (if s.next_offset % S = 0 ∧ s.next_offset > 0 then
          [ShardAction.commitPeriod s.producer_id s.shard_id (s.next_offset / S - 1)]
          else []), ShardAction.touchesOffsetGE ((P + 1) * S) a = false := by
        intro a ha
        split at ha
        · simp at ha
          subst ha
          rfl
        · simp at ha
      have hqflush : ShardAction.touchesOffsetGE ((P + 1) * S)
          (ShardAction.flushBatch s.buffer) = false := by
        simp only [ShardAction.touchesOffsetGE]
        rw [List.any_eq_false]
        intro ev hev
        simpa using not_le.mpr (h4 ev hev)
      cases c with
      | shutdown =>
        rw [Shard.run]
        apply precededBy_of_notQ
        intro a ha
        rcases List.mem_append.mp ha with h | h
        · exact hqpre a h
        · simp only [Shard.flush, Shard.clear_buffer] at h
          split at h
          · simp at h
            subst h
            exact hqflush
          · simp at h
      | insertAccountUpdate p =>
        rw [Shard.run]
        rw [List.append_assoc]
        apply precededBy_append_of_notQ _ _ _ _ (hqpre)
        apply precededBy_append_of_notQ
        · intro a ha
          rcases Shard.handleInsert_trace_mem _ _ _ _ a ha with h | h
          · subst h
            simp only [ShardAction.touchesOffsetGE]
            simpa using not_le.mpr hlt
          · subst h
            exact hqflush
        · apply ih
          · rw [Shard.handleInsert_producer_id]
            exact h1
          · rw [Shard.handleInsert_shard_id]
            exact h2
          · rw [Shard.handleInsert_next_offset]
            simpa using hlt
          · intro ev hev
            rcases Shard.handleInsert_buffer_mem _ _ _ _ ev hev with h | h
            · exact h4 ev h
            · subst h
              simpa using hlt
      | insertTransaction p =>
        rw [Shard.run]
        rw [List.append_assoc]
        apply precededBy_append_of_notQ _ _ _ _ (hqpre)
        apply precededBy_append_of_notQ
        · intro a ha
          rcases Shard.handleInsert_trace_mem _ _ _ _ a ha with h | h
          · subst h
            simp only [ShardAction.touchesOffsetGE]
            simpa using not_le.mpr hlt
          · subst h
            exact hqflush
        · apply ih
          · rw [Shard.handleInsert_producer_id]
            exact h1
          · rw [Shard.handleInsert_shard_id]
            exact h2
          · rw [Shard.handleInsert_next_offset]
            simpa using hlt
          · intro ev hev
            rcases Shard.handleInsert_buffer_mem _ _ _ _ ev hev with h | h
            · exact h4 ev h
            · subst h
              simpa using hlt

/-- C2 (amended): for a run started with `next_offset = k` and any period
`P ≥ 0` whose boundary `(P+1)*S` is at or above `k`, before any event with
offset `≥ (P+1)*S` is buffered or submitted, the period-commit statement
for `(producer_id, shard_id, P)` has been executed and awaited — the
daemon commits `curr_period - 1` at the top of the iteration in which
`next_offset` is a positive multiple of `S`, before receiving the message
that takes that offset. (Boundaries strictly below `k` were crossed, and
committed, by earlier runs; the run re-commits only the boundary it starts
on or later ones.) -/
theorem c2_commit_before_boundary (S sid : Int) (pid : Nat) (k P : Int)
    (cap mbs lin : Nat) (s0 : Shard) (d : Nat) (cmds : List (Nat × ClientCommand))
    (hS : 0 < S) (hP : 0 ≤ P) (hk : k ≤ (P + 1) * S)
    (h0 : Shard.new sid pid k cap mbs lin = some s0) :
    precededBy (ShardAction.isCommitOf pid sid P)
      (ShardAction.touchesOffsetGE ((P + 1) * S))
      (Shard.run S s0 d cmds).2.1 = true := by
  unfold Shard.new at h0
  split at h0
  · exact absurd h0 (by simp)
  · cases h0
    apply run_commit_precedes_boundary S pid sid P hS hP cmds _ d rfl rfl hk
    intro ev hev
    simp at hev

theorem c2_commit_before_boundary_witness :
    (0 : Int) < 2 ∧ (0 : Int) ≤ 0 ∧ (0 : Int) ≤ (0 + 1) * 2
    ∧ Shard.new 0 1 0 15 4096 1000 = some
        { shard_id := 0, producer_id := 1, next_offset := 0, buffer := [],
          max_buffer_capacity := 15, max_buffer_byte_size := 4096,
          scylla_batch := 0, curr_batch_byte_size := 0, buffer_linger := 1000 }
    ∧ precededBy (ShardAction.isCommitOf 1 0 0) (ShardAction.touchesOffsetGE ((0 + 1) * 2))
        (Shard.run 2
          { shard_id := 0, producer_id := 1, next_offset := 0, buffer := [],
            max_buffer_capacity := 15, max_buffer_byte_size := 4096,
            scylla_batch := 0, curr_batch_byte_size := 0, buffer_linger := 1000 } 1000
          [(0, ClientCommand.insertAccountUpdate { slot := 5, byteSize := 4 }),
           (0, ClientCommand.insertAccountUpdate { slot := 6, byteSize := 4 }),
           (0, ClientCommand.insertAccountUpdate { slot := 7, byteSize := 4 })]).2.1
        = true :=
  ⟨by decide, by decide, by decide, by rfl,
   c2_commit_before_boundary 2 0 1 0 0 15 4096 1000 _ 1000 _
     (by decide) (by decide) (by decide) rfl⟩

/-- C2 counterexample to the claim as stated: a run started mid-period at
`next_offset = 150` (period size 100) buffers the event at offset
`150 ≥ (0+1)*100` without ever executing the period-commit statement for
period 0 — that boundary was crossed before this run began. -/
theorem c2_counterexample_no_commit_for_past_period :
    (Shard.run 100
        { shard_id := 7, producer_id := 1, next_offset := 150, buffer := [],
          max_buffer_capacity := 15, max_buffer_byte_size := 4096,
          scylla_batch := 0, curr_batch_byte_size := 0, buffer_linger := 50 } 100
        [(0, ClientCommand.insertAccountUpdate { slot := 42, byteSize := 10 })]).2.1
      = [ShardAction.bufferEvent
          { shard_id := 7, producer_id := 1, offset := 150, slot := 42, byteSize := 10 }]
    ∧ precededBy (ShardAction.isCommitOf 1 7 0)
        (ShardAction.touchesOffsetGE ((0 + 1) * 100))
        (Shard.run 100
          { shard_id := 7, producer_id := 1, next_offset := 150, buffer := [],
            max_buffer_capacity := 15, max_buffer_byte_size := 4096,
            scylla_batch := 0, curr_batch_byte_size := 0, buffer_linger := 50 } 100
          [(0, ClientCommand.insertAccountUpdate { slot := 42, byteSize := 10 })]).2.1
      = false := by
  exact ⟨by decide, by decide⟩

theorem bufferedBefore_append_of_notP (p : ShardAction → Bool)
    (l1 l2 : List ShardAction) (h : ∀ a ∈ l1, p a = false) :
    bufferedBefore p (l1 ++ l2) = bufferedEvents l1 ++ bufferedBefore p l2 := by
  induction l1 with
  | nil => simp [bufferedEvents]
  | cons a l ih =>
    have hpa := h a (List.mem_cons_self a l)
    have ih' := ih (fun a ha => h a (List.mem_cons_of_mem _ ha))
    cases a <;> simp_all [bufferedBefore, bufferedEvents]

/-- C3 (amended) core induction: up to the moment the period-commit for
`P` is executed, the daemon has buffered exactly the offsets from its
starting offset up to `(P+1)*S - 1` — every offset of period `P` that the
run covers has been received and assigned before the commit is written. -/
theorem run_boundary_received_before_commit (S : Int) (pid : Nat) (sid P : Int)
    (hS : 0 < S) (hP : 0 ≤ P) :
    ∀ (cmds : List (Nat × ClientCommand)) (s : Shard) (d : Nat),
      s.producer_id = pid → s.shard_id = sid →
      s.next_offset ≤ (P + 1) * S →
      (∀ tc ∈ cmds, tc.2 ≠ ClientCommand.shutdown) →
      ((P + 1) * S - s.next_offset).toNat ≤ cmds.length →
      (bufferedBefore (ShardAction.isCommitOf pid sid P) (Shard.run S s d cmds).2.1).map
          (fun ev => ev.offset)
        = intRange s.next_offset ((P + 1) * S - s.next_offset).toNat := by
  have hBpos : (0 : Int) < (P + 1) * S := mul_pos (by omega) hS
  have hmod : ((P + 1) * S) % S = 0 := Int.mul_emod_left _ _
  have hdiv : ((P + 1) * S) / S = P + 1 := Int.mul_ediv_cancel _ (ne_of_gt hS)
  intro cmds
  induction cmds with
  | nil =>
    intro s d h1 h2 h3 hcmds hlen
    have heq : s.next_offset = (P + 1) * S := by
      simp only [List.length_nil, Nat.le_zero] at hlen
      omega
    have hcond : s.next_offset % S = 0 ∧ s.next_offset > 0 := by
      constructor
      · rw [heq]
        exact hmod
      · rw [heq]
        exact hBpos
    have hper : s.next_offset / S - 1 = P := by
      rw [heq, hdiv]
      omega
    rw [Shard.run]
    simp only [if_pos hcond, hper, h1, h2]
    have hzero : ((P + 1) * S - s.next_offset).toNat = 0 := by
      omega
    rw [hzero]
    simp [bufferedBefore, ShardAction.isCommitOf, intRange]
  | cons hd rest ih =>
    obtain ⟨now, c⟩ := hd
    intro s d h1 h2 h3 hcmds hlen
    rcases eq_or_lt_of_le h3 with heq | hlt
    · -- boundary reached: the commit for P opens the trace
      have hcond : s.next_offset % S = 0 ∧ s.next_offset > 0 := by
        constructor
        · rw [heq]
          exact hmod
        · rw [heq]
          exact hBpos
      have hper : s.next_offset / S - 1 = P := by
        rw [heq, hdiv]
        omega
      have hzero : ((P + 1) * S - s.next_offset).toNat = 0 := by
        omega
      cases c with
      | shutdown =>
        exact absurd rfl (hcmds (now, ClientCommand.shutdown) (List.mem_cons_self _ _))
      | insertAccountUpdate p =>
        rw [Shard.run]
        simp only [if_pos hcond, hper, h1, h2, hzero, List.singleton_append,
          List.cons_append]
        simp [bufferedBefore, ShardAction.isCommitOf, intRange]
      | insertTransaction p =>
        rw [Shard.run]
        simp only [if_pos hcond, hper, h1, h2, hzero, List.singleton_append,
          List.cons_append]
        simp [bufferedBefore, ShardAction.isCommitOf, intRange]
    · -- strictly below the boundary: the iteration buffers this offset
      -- and recursion covers the rest
      have hppre : ∀ a ∈ (if s.next_offset % S = 0 ∧ s.next_offset > 0 then
          [ShardAction.commitPeriod s.producer_id s.shard_id (s.next_offset / S - 1)]
          else []), ShardAction.isCommitOf pid sid P a = false := by
        intro a ha
        split at ha
        case isTrue hcond =>
          simp only [List.mem_singleton] at ha
          subst ha
          have hq : s.next_offset / S < P + 1 := by
            rw [Int.ediv_lt_iff_lt_mul hS]
            exact hlt
          have hne : s.next_offset / S - 1 ≠ P := by
            omega
          simp [ShardAction.isCommitOf, hne]
        case isFalse => simp at ha
      cases c with
      | shutdown =>
        exact absurd rfl (hcmds (now, ClientCommand.shutdown) (List.mem_cons_self _ _))
      | insertAccountUpdate p =>
        rw [Shard.run]
        rw [List.append_assoc, bufferedBefore_append_of_notP _ _ _ hppre,
          bufferedBefore_append_of_notP, bufferedEvents_handleInsert]
        · have hnext : ({ s with next_offset := s.next_offset + 1 }.handleInsert d now
              (p.as_blockchain_event s.shard_id s.producer_id s.next_offset)).1.next_offset
              = s.next_offset + 1 := by
            rw [Shard.handleInsert_next_offset]
          have hpre0 : bufferedEvents (if s.next_offset % S = 0 ∧ s.next_offset > 0 then
              [ShardAction.commitPeriod s.producer_id s.shard_id (s.next_offset / S - 1)]
              else []) = [] := by
            split <;> rfl
          rw [hpre0]
          simp only [List.nil_append, List.singleton_append, List.map_cons]
          rw [ih _ _ (by rw [Shard.handleInsert_producer_id]; exact h1)
              (by rw [Shard.handleInsert_shard_id]; exact h2)
              (by rw [hnext]; simpa using hlt)
              (fun tc htc => hcmds tc (List.mem_cons_of_mem _ htc))
              (by rw [hnext]; simp only [List.length_cons] at hlen; omega)]
          rw [hnext]
          have hsucc : ((P + 1) * S - s.next_offset).toNat
              = ((P + 1) * S - (s.next_offset + 1)).toNat + 1 := by
            omega
          rw [hsucc]
          rfl
        · intro a ha
          rcases Shard.handleInsert_trace_mem _ _ _ _ a ha with h | h <;> subst h <;> rfl
      | insertTransaction p =>
        rw [Shard.run]
        rw [List.append_assoc, bufferedBefore_append_of_notP _ _ _ hppre,
          bufferedBefore_append_of_notP, bufferedEvents_handleInsert]
        · have hnext : ({ s with next_offset := s.next_offset + 1 }.handleInsert d now
              (p.as_blockchain_event s.shard_id s.producer_id s.next_offset)).1.next_offset
              = s.next_offset + 1 := by
            rw [Shard.handleInsert_next_offset]
          have hpre0 : bufferedEvents (if s.next_offset % S = 0 ∧ s.next_offset > 0 then
              [ShardAction.commitPeriod s.producer_id s.shard_id (s.next_offset / S - 1)]
              else []) = [] := by
            split <;> rfl
          rw [hpre0]
          simp only [List.nil_append, List.singleton_append, List.map_cons]
          rw [ih _ _ (by rw [Shard.handleInsert_producer_id]; exact h1)
              (by rw [Shard.handleInsert_shard_id]; exact h2)
              (by rw [hnext]; simpa using hlt)
              (fun tc htc => hcmds tc (List.mem_cons_of_mem _ htc))
              (by rw [hnext]; simp only [List.length_cons] at hlen; omega)]
          rw [hnext]
          have hsucc : ((P + 1) * S - s.next_offset).toNat
              = ((P + 1) * S - (s.next_offset + 1)).toNat + 1 := by
            omega
          rw [hsucc]
          rfl
        · intro a ha
          rcases Shard.handleInsert_trace_mem _ _ _ _ a ha with h | h <;> subst h <;> rfl

/-- C3 (amended): when the daemon executes the period-commit for `P`, it
has already received and buffered every offset the run covers up to the
end of period `P` — the events buffered strictly before the commit are
exactly offsets `k .. (P+1)*S - 1`. Those events, however, may still be
in the in-memory buffer at that moment: the commit does not imply they
have been flushed to the log (see the counterexample). -/
theorem c3_period_received_before_commit (S sid : Int) (pid : Nat) (k P : Int)
    (cap mbs lin : Nat) (s0 : Shard) (d : Nat) (cmds : List (Nat × ClientCommand))
    (hS : 0 < S) (hP : 0 ≤ P) (hk : k ≤ (P + 1) * S)
    (hcmds : ∀ tc ∈ cmds, tc.2 ≠ ClientCommand.shutdown)
    (hlen : ((P + 1) * S - k).toNat ≤ cmds.length)
    (h0 : Shard.new sid pid k cap mbs lin = some s0) :
    (bufferedBefore (ShardAction.isCommitOf pid sid P) (Shard.run S s0 d cmds).2.1).map
        (fun ev => ev.offset)
      = intRange k ((P + 1) * S - k).toNat := by
  unfold Shard.new at h0
  split at h0
  · exact absurd h0 (by simp)
  · cases h0
    exact run_boundary_received_before_commit S pid sid P hS hP cmds _ d rfl rfl hk
      hcmds hlen

theorem c3_period_received_before_commit_witness :
    (0 : Int) < 2 ∧ (0 : Int) ≤ 0 ∧ (0 : Int) ≤ (0 + 1) * 2
    ∧ (∀ tc ∈ [((0 : Nat), ClientCommand.insertAccountUpdate { slot := 5, byteSize := 4 }),
        (0, ClientCommand.insertAccountUpdate { slot := 6, byteSize := 4 }),
        (0, ClientCommand.insertAccountUpdate { slot := 7, byteSize := 4 })],
        tc.2 ≠ ClientCommand.shutdown)
    ∧ (((0 : Int) + 1) * 2 - 0).toNat ≤ 3
    ∧ Shard.new 0 1 0 15 4096 1000 = some
        { shard_id := 0, producer_id := 1, next_offset := 0, buffer := [],
          max_buffer_capacity := 15, max_buffer_byte_size := 4096,
          scylla_batch := 0, curr_batch_byte_size := 0, buffer_linger := 1000 }
    ∧ (bufferedBefore (ShardAction.isCommitOf 1 0 0)
        (Shard.run 2
          { shard_id := 0, producer_id := 1, next_offset := 0, buffer := [],
            max_buffer_capacity := 15, max_buffer_byte_size := 4096,
            scylla_batch := 0, curr_batch_byte_size := 0, buffer_linger := 1000 } 1000
          [(0, ClientCommand.insertAccountUpdate { slot := 5, byteSize := 4 }),
           (0, ClientCommand.insertAccountUpdate { slot := 6, byteSize := 4 }),
           (0, ClientCommand.insertAccountUpdate { slot := 7, byteSize := 4 })]).2.1).map
        (fun ev => ev.offset)
      = intRange 0 (((0 : Int) + 1) * 2 - 0).toNat :=
  ⟨by decide, by decide, by decide, by decide, by decide, by rfl,
   c3_period_received_before_commit 2 0 1 0 0 15 4096 1000 _ 1000 _
     (by decide) (by decide) (by decide) (by decide) (by decide) rfl⟩

/-- C3 counterexample to the claim as stated: resuming at offset 99 with
period size 100, the daemon buffers the event at offset 99 (period 0),
then at the top of the next iteration writes the period-commit for period
0 while that event is still held in the in-memory buffer — no flush has
happened, so period 0 is not yet complete in the durable log at the
moment its commit mark is written. -/
theorem c3_counterexample_commit_while_buffered :
    (Shard.run 100
        { shard_id := 0, producer_id := 1, next_offset := 99, buffer := [],
          max_buffer_capacity := 15, max_buffer_byte_size := 4096,
          scylla_batch := 0, curr_batch_byte_size := 0, buffer_linger := 1000 } 1000
        [(0, ClientCommand.insertAccountUpdate { slot := 42, byteSize := 10 }),
         (1, ClientCommand.insertAccountUpdate { slot := 43, byteSize := 10 })]).2.1
      = [ShardAction.bufferEvent
          { shard_id := 0, producer_id := 1, offset := 99, slot := 42, byteSize := 10 },
         ShardAction.commitPeriod 1 0 0,
         ShardAction.bufferEvent
          { shard_id := 0, producer_id := 1, offset := 100, slot := 43, byteSize := 10 }]
    ∧ noPendingOfPeriodAtCommit 100 []
        (Shard.run 100
          { shard_id := 0, producer_id := 1, next_offset := 99, buffer := [],
            max_buffer_capacity := 15, max_buffer_byte_size := 4096,
            scylla_batch := 0, curr_batch_byte_size := 0, buffer_linger := 1000 } 1000
          [(0, ClientCommand.insertAccountUpdate { slot := 42, byteSize := 10 }),
           (1, ClientCommand.insertAccountUpdate { slot := 43, byteSize := 10 })]).2.1
      = false := by
  exact ⟨by decide, by decide⟩

/-- C5 (amended): an event waiting in a non-empty buffer is flushed the
next time the daemon processes a command — an Insert processed after the
linger deadline flushes the pending batch before appending, and a
Shutdown flushes unconditionally. The daemon has no timer: if no further
command arrives at the mailbox, nothing bounds how long the event waits
(see the counterexample). -/
theorem c5_flush_on_next_command (s : Shard) (S : Int) (d now t : Nat)
    (ev : BlockchainEvent) (hb : s.buffer ≠ []) :
    (d < now → (s.handleInsert d now ev).2.2
        = [ShardAction.flushBatch s.buffer, ShardAction.bufferEvent ev])
    ∧ ShardAction.flushBatch s.buffer
        ∈ (Shard.run S s d [(t, ClientCommand.shutdown)]).2.1 := by
  constructor
  · intro hd
    simp only [Shard.handleInsert, Shard.flush, Shard.clear_buffer]
    rw [if_pos (Or.inr (Or.inr hd))]
    rw [if_pos (List.length_pos.mpr hb)]
    rfl
  · rw [Shard.run]
    simp only [Shard.flush, Shard.clear_buffer]
    apply List.mem_append.mpr
    right
    rw [if_pos (List.length_pos.mpr hb)]
    exact List.mem_singleton.mpr rfl

def c5WitnessEvent : BlockchainEvent :=
  { shard_id := 0, producer_id := 1, offset := 0, slot := 42, byteSize := 600 }

def c5WitnessShard : Shard :=
  { shard_id := 0, producer_id := 1, next_offset := 1, buffer := [c5WitnessEvent],
    max_buffer_capacity := 15, max_buffer_byte_size := 1048576,
    scylla_batch := 1, curr_batch_byte_size := 600, buffer_linger := 50 }

def c5WitnessNextEvent : BlockchainEvent :=
  { shard_id := 0, producer_id := 1, offset := 1, slot := 43, byteSize := 700 }

theorem c5_flush_on_next_command_witness :
    c5WitnessShard.buffer ≠ []
    ∧ ((50 < 151 → (c5WitnessShard.handleInsert 50 151 c5WitnessNextEvent).2.2
        = [ShardAction.flushBatch c5WitnessShard.buffer,
           ShardAction.bufferEvent c5WitnessNextEvent])
      ∧ ShardAction.flushBatch c5WitnessShard.buffer
          ∈ (Shard.run 100 c5WitnessShard 50 [(200, ClientCommand.shutdown)]).2.1) :=
  ⟨by decide, c5_flush_on_next_command c5WitnessShard 100 50 151 200 c5WitnessNextEvent
    (by decide)⟩

/-- C5 counterexample to the claim as stated: with `linger = 50` a single
event is appended to the buffer at time 0 and no further command arrives;
the run performs no flush at all — the trace contains only the buffering
action and the event is still in the buffer when the daemon blocks on its
mailbox, however much time passes. The linger predicate is only evaluated
when a later message is processed. -/
theorem c5_counterexample_no_timer_flush :
    (Shard.run 100
        { shard_id := 0, producer_id := 1, next_offset := 0, buffer := [],
          max_buffer_capacity := 15, max_buffer_byte_size := 1048576,
          scylla_batch := 0, curr_batch_byte_size := 0, buffer_linger := 50 } 50
        [(0, ClientCommand.insertAccountUpdate { slot := 42, byteSize := 600 })]).2.1
      = [ShardAction.bufferEvent
          { shard_id := 0, producer_id := 1, offset := 0, slot := 42, byteSize := 600 }]
    ∧ (Shard.run 100
        { shard_id := 0, producer_id := 1, next_offset := 0, buffer := [],
          max_buffer_capacity := 15, max_buffer_byte_size := 1048576,
          scylla_batch := 0, curr_batch_byte_size := 0, buffer_linger := 50 } 50
        [(0, ClientCommand.insertAccountUpdate { slot := 42, byteSize := 600 })]).1.buffer
      = [{ shard_id := 0, producer_id := 1, offset := 0, slot := 42, byteSize := 600 }] := by
  exact ⟨by decide, by decide⟩

theorem sentInsert_teardown (n : Nat) :
    (roundRobinTeardown n).filterMap DispatcherAction.sentInsert = [] := by
  apply List.filterMap_eq_nil_iff.mpr
  intro a ha
  unfold roundRobinTeardown at ha
  obtain ⟨i, _, rfl⟩ := List.mem_map.mp ha
  rfl

theorem go_sentInserts (pid n : Nat) (rest : List ClientCommand) :
    ∀ (ps : List ClientCommand) (k : Nat) (m : Int),
      (∀ p ∈ ps, p ≠ ClientCommand.shutdown) →
      (spawnRoundRobinGo pid n (fun _ => true) k m
          (ps ++ ClientCommand.shutdown :: rest)).filterMap DispatcherAction.sentInsert
        = rrTargets n k ps := by
  intro ps
  induction ps with
  | nil =>
    intro k m _
    rw [List.nil_append, spawnRoundRobinGo, if_pos rfl, sentInsert_teardown]
    rfl
  | cons p ps' ih =>
    intro k m h
    have hp : p ≠ ClientCommand.shutdown := h p (List.mem_cons_self _ _)
    have hrec := fun m' => ih (k + 1) m' (fun x hx => h x (List.mem_cons_of_mem _ hx))
    cases p with
    | shutdown => exact absurd rfl hp
    | insertAccountUpdate x =>
      rw [List.cons_append, spawnRoundRobinGo, if_neg hp]
      simp only []
      rw [if_pos trivial]
      rw [List.filterMap_append]
      have h1 : (if m < x.slot then [DispatcherAction.slotSeenInsert pid x.slot]
          else []).filterMap DispatcherAction.sentInsert = [] := by
        split <;> rfl
      rw [h1, List.filterMap_cons]
      simp only [DispatcherAction.sentInsert, reduceCtorEq, if_neg]
      rw [hrec _]
      rfl
    | insertTransaction x =>
      rw [List.cons_append, spawnRoundRobinGo, if_neg hp]
      simp only []
      rw [if_pos trivial]
      rw [List.filterMap_append]
      have h1 : (if m < x.slot then [DispatcherAction.slotSeenInsert pid x.slot]
          else []).filterMap DispatcherAction.sentInsert = [] := by
        split <;> rfl
      rw [h1, List.filterMap_cons]
      simp only [DispatcherAction.sentInsert, reduceCtorEq, if_neg]
      rw [hrec _]
      rfl

theorem go_teardown_suffix (pid n : Nat) (ok : Nat → Bool) :
    ∀ (msgs : List ClientCommand) (k : Nat) (m : Int),
      ∃ t1, spawnRoundRobinGo pid n ok k m msgs = t1 ++ roundRobinTeardown n := by
  intro msgs
  induction msgs with
  | nil =>
    intro k m
    exact ⟨[], rfl⟩
  | cons msg rest ih =>
    intro k m
    cases msg with
    | shutdown =>
      refine ⟨[], ?_⟩
      rw [spawnRoundRobinGo, if_pos rfl]
      rfl
    | insertAccountUpdate x =>
      rw [spawnRoundRobinGo, if_neg (by simp)]
      simp only []
      by_cases hok : ok k = true
      · rw [if_pos hok]
        obtain ⟨t1, ht⟩ := ih (k + 1) (if m < x.slot then x.slot else m)
        refine ⟨(if m < x.slot then [DispatcherAction.slotSeenInsert pid x.slot] else [])
          ++ DispatcherAction.sendToShard (k % n)
              (ClientCommand.insertAccountUpdate x) :: t1, ?_⟩
        rw [ht, List.append_assoc, List.cons_append]
      · rw [if_neg hok]
        exact ⟨_, rfl⟩
    | insertTransaction x =>
      rw [spawnRoundRobinGo, if_neg (by simp)]
      simp only []
      by_cases hok : ok k = true
      · rw [if_pos hok]
        obtain ⟨t1, ht⟩ := ih (k + 1) (if m < x.slot then x.slot else m)
        refine ⟨(if m < x.slot then [DispatcherAction.slotSeenInsert pid x.slot] else [])
          ++ DispatcherAction.sendToShard (k % n)
              (ClientCommand.insertTransaction x) :: t1, ?_⟩
        rw [ht, List.append_assoc, List.cons_append]
      · rw [if_neg hok]
        exact ⟨_, rfl⟩

theorem go_sentInserts_take (pid n bad : Nat) (rest : List ClientCommand) :
    ∀ (ps : List ClientCommand) (k : Nat) (m : Int),
      (∀ p ∈ ps, p ≠ ClientCommand.shutdown) →
      (spawnRoundRobinGo pid n (fun j => decide (j < bad)) k m
          (ps ++ ClientCommand.shutdown :: rest)).filterMap DispatcherAction.sentInsert
        = rrTargets n k (ps.take (bad - k)) := by
  intro ps
  induction ps with
  | nil =>
    intro k m _
    rw [List.nil_append, spawnRoundRobinGo, if_pos rfl, sentInsert_teardown]
    rw [List.take_nil]
    rfl
  | cons p ps' ih =>
    intro k m h
    have hrec := fun m' => ih (k + 1) m' (fun x hx => h x (List.mem_cons_of_mem _ hx))
    cases p with
    | shutdown =>
      exact absurd rfl (h ClientCommand.shutdown (List.mem_cons_self _ _))
    | insertAccountUpdate x =>
      have hslot : (if m < x.slot then [DispatcherAction.slotSeenInsert pid x.slot]
          else []).filterMap DispatcherAction.sentInsert = [] := by
        split <;> rfl
      by_cases hk : k < bad
      · rw [List.cons_append, spawnRoundRobinGo, if_neg (by simp)]
        simp only []
        rw [if_pos (by simpa using hk), List.filterMap_append, hslot,
          List.filterMap_cons]
        have hsend : DispatcherAction.sentInsert (DispatcherAction.sendToShard (k % n)
            (ClientCommand.insertAccountUpdate x))
            = some (k % n, ClientCommand.insertAccountUpdate x) := by
          simp [DispatcherAction.sentInsert]
        rw [hsend, hrec _]
        have htake : bad - k = (bad - (k + 1)) + 1 := by omega
        rw [htake, List.take_succ_cons]
        rfl
      · rw [List.cons_append, spawnRoundRobinGo, if_neg (by simp)]
        simp only []
        rw [if_neg (by simpa using hk), List.filterMap_append, hslot,
          sentInsert_teardown]
        have htake : bad - k = 0 := by omega
        rw [htake, List.take_zero]
        rfl
    | insertTransaction x =>
      have hslot : (if m < x.slot then [DispatcherAction.slotSeenInsert pid x.slot]
          else []).filterMap DispatcherAction.sentInsert = [] := by
        split <;> rfl
      by_cases hk : k < bad
      · rw [List.cons_append, spawnRoundRobinGo, if_neg (by simp)]
        simp only []
        rw [if_pos (by simpa using hk), List.filterMap_append, hslot,
          List.filterMap_cons]
        have hsend : DispatcherAction.sentInsert (DispatcherAction.sendToShard (k % n)
            (ClientCommand.insertTransaction x))
            = some (k % n, ClientCommand.insertTransaction x) := by
          simp [DispatcherAction.sentInsert]
        rw [hsend, hrec _]
        have htake : bad - k = (bad - (k + 1)) + 1 := by omega
        rw [htake, List.take_succ_cons]
        rfl
      · rw [List.cons_append, spawnRoundRobinGo, if_neg (by simp)]
        simp only []
        rw [if_neg (by simpa using hk), List.filterMap_append, hslot,
          sentInsert_teardown]
        have htake : bad - k = 0 := by omega
        rw [htake, List.take_zero]
        rfl

/-- C9: with N ≥ 1 shard mailboxes, the dispatcher sends the k-th insert
command it receives (counting from 0) to shard `k % N`, starting at shard
0 and advancing by one per command; each send goes through a
backpressuring reservation, and a failed reservation at position `bad`
stops routing (only the first `bad` inserts are dispatched); on teardown
— explicit `Shutdown` or a closed input channel — it enqueues `Shutdown`
to every shard mailbox in index order. -/
theorem c9_round_robin_dispatch (n pid bad : Nat) (ps rest : List ClientCommand)
    (hn : 1 ≤ n) (hps : ∀ p ∈ ps, p ≠ ClientCommand.shutdown) :
    ((spawn_round_robin pid n (fun _ => true)
        (ps ++ ClientCommand.shutdown :: rest)).filterMap DispatcherAction.sentInsert
      = rrTargets n 0 ps)
    ∧ (∃ t1, spawn_round_robin pid n (fun _ => true)
        (ps ++ ClientCommand.shutdown :: rest) = t1 ++ roundRobinTeardown n)
    ∧ ((spawn_round_robin pid n (fun j => decide (j < bad))
        (ps ++ ClientCommand.shutdown :: rest)).filterMap DispatcherAction.sentInsert
      = rrTargets n 0 (ps.take bad)) := by
  have hne : n ≠ 0 := by omega
  unfold spawn_round_robin
  simp only [if_neg hne]
  refine ⟨go_sentInserts pid n rest ps 0 (-1) hps,
    go_teardown_suffix pid n _ _ 0 (-1), ?_⟩
  have h := go_sentInserts_take pid n bad rest ps 0 (-1) hps
  simpa using h

theorem c9_round_robin_dispatch_witness :
    1 ≤ 2
    ∧ (∀ p ∈ [ClientCommand.insertAccountUpdate { slot := 5, byteSize := 4 },
        ClientCommand.insertTransaction { slot := 6, byteSize := 4 },
        ClientCommand.insertAccountUpdate { slot := 4, byteSize := 4 }],
        p ≠ ClientCommand.shutdown)
    ∧ (((spawn_round_robin 9 2 (fun _ => true)
          ([ClientCommand.insertAccountUpdate { slot := 5, byteSize := 4 },
            ClientCommand.insertTransaction { slot := 6, byteSize := 4 },
            ClientCommand.insertAccountUpdate { slot := 4, byteSize := 4 }]
            ++ ClientCommand.shutdown :: [])).filterMap DispatcherAction.sentInsert
        = rrTargets 2 0 [ClientCommand.insertAccountUpdate { slot := 5, byteSize := 4 },
            ClientCommand.insertTransaction { slot := 6, byteSize := 4 },
            ClientCommand.insertAccountUpdate { slot := 4, byteSize := 4 }])
      ∧ (∃ t1, spawn_round_robin 9 2 (fun _ => true)
          ([ClientCommand.insertAccountUpdate { slot := 5, byteSize := 4 },
            ClientCommand.insertTransaction { slot := 6, byteSize := 4 },
            ClientCommand.insertAccountUpdate { slot := 4, byteSize := 4 }]
            ++ ClientCommand.shutdown :: []) = t1 ++ roundRobinTeardown 2)
      ∧ ((spawn_round_robin 9 2 (fun j => decide (j < 1))
          ([ClientCommand.insertAccountUpdate { slot := 5, byteSize := 4 },
            ClientCommand.insertTransaction { slot := 6, byteSize := 4 },
            ClientCommand.insertAccountUpdate { slot := 4, byteSize := 4 }]
            ++ ClientCommand.shutdown :: [])).filterMap DispatcherAction.sentInsert
        = rrTargets 2 0 ([ClientCommand.insertAccountUpdate { slot := 5, byteSize := 4 },
            ClientCommand.insertTransaction { slot := 6, byteSize := 4 },
            ClientCommand.insertAccountUpdate { slot := 4, byteSize := 4 }].take 1))) :=
  ⟨by decide, by decide,
   c9_round_robin_dispatch 2 9 1
     [ClientCommand.insertAccountUpdate { slot := 5, byteSize := 4 },
      ClientCommand.insertTransaction { slot := 6, byteSize := 4 },
      ClientCommand.insertAccountUpdate { slot := 4, byteSize := 4 }] []
     (by decide) (by decide)⟩
